import Mathlib

/-!
# Verification of `cswords/configuration` (`Config.go`)

A shallow embedding of package `configuration`: the schema (`Config`, `Server`,
`Router`, `Middleware`, `Handler`), the loader chain `LoadConfig`, the method
`Config.loadBinary` and the built-in loader `FromLocal`.

Modelling conventions.

* A Go `[]byte` is an `Option Bytes`: `none` is the `nil` slice, `some []` is a
  slice that is present and has length zero.  The source compares slices with
  `nil` (`b != nil`), so the two are kept apart.
* A Go `string` is a `String`.  The only string operations of the source are
  `strings.HasPrefix`, `strings.TrimPrefix` and `+`; the prefixes they are given
  are ASCII, for which a prefix of bytes and a prefix of characters are the same.
* Code that has effects (the loader functions, `filepath.Abs`, `ioutil.ReadFile`,
  the `log` package) is a function on an explicit world `σ`.  The operations of
  the imported packages are the fields of `Lib σ`; the source is embedded once,
  for every interpretation of them.
* `log.Fatalf` prints and then ends the process with status 1: a call that can
  end the process returns an `Outcome`.
-/

namespace Configuration

/-! ## Data model -/

/-- One octet. -/
abbrev Byte := Fin 256

/-- The contents of a byte slice that is not `nil`. -/
abbrev Bytes := List Byte

/-- A Go `error` that is not `nil`, as the text it prints. -/
abbrev Error := String

/-- The struct `Middleware`: `Type` (tag `type`, here `Typ`) and `Config` (tag
`config`), a `map[string]string` kept as its entries. -/
structure Middleware where
  Typ : String := ""
  Config : List (String × String) := []
  deriving DecidableEq, Repr

/-- The struct `Handler`: `Path`, `Type` (here `Typ`) and `Config`. -/
structure Handler where
  Path : String := ""
  Typ : String := ""
  Config : List (String × String) := []
  deriving DecidableEq, Repr

/-- The struct `Router`: `Prefix`, `Middlewares` and `Handlers`. -/
structure Router where
  Prefix : String := ""
  Middlewares : List Middleware := []
  Handlers : List Handler := []
  deriving DecidableEq, Repr

/-- The struct `Server`: `Port` and `Routers`. -/
structure Server where
  Port : String := ""
  Routers : List Router := []
  deriving DecidableEq, Repr

/-- The struct `Config`, the root node: one `Server`.  The default value of every
field is the zero value of its Go type, so `({} : Config)` is `Config{}`. -/
structure Config where
  Server : Server := {}
  deriving DecidableEq, Repr

/-- How a call that may end the process comes back: with a value, or not at all,
the process having exited with a status. -/
inductive Outcome (α : Type) where
  | returned (a : α)
  | exited (status : Nat)
  deriving DecidableEq, Repr

/-- A loader function, `func(string) []byte`, run in a world `σ`. -/
abbrev Loader (σ : Type) := String → σ → Option Bytes × σ

/-! ## The imported packages -/

/-- The operations `Config.go` imports, over a world `σ`.

* `Dir`, `Abs`: `path/filepath`; `Abs` returns `(string, error)`.
* `ReadFile`: `io/ioutil`, returns `([]byte, error)`.
* `Println`, `Printf`: the output of package `log`, given the operands as text.
* `Unmarshal`: `gopkg.in/yaml.v2`; it is given the bytes and the value behind
  the pointer, and returns that value as it leaves it, with the `error`. -/
structure Lib (σ : Type) where
  Dir : String → String
  Abs : String → σ → (String × Option Error) × σ
  ReadFile : String → σ → (Option Bytes × Option Error) × σ
  Println : List String → σ → σ
  Printf : String → List String → σ → σ
  Unmarshal : Option Bytes → Config → Config × Option Error

/-- `strings.HasPrefix(s, pre)`:
`len(s) >= len(pre) && s[0:len(pre)] == pre`. -/
def HasPrefix (s pre : String) : Bool :=
  decide (s.data.length ≥ pre.data.length) && (s.data.take pre.data.length == pre.data)

/-- `strings.TrimPrefix(s, pre)`: `s[len(pre):]` if `HasPrefix(s, pre)`, else `s`. -/
def TrimPrefix (s pre : String) : String :=
  if HasPrefix s pre then String.mk (s.data.drop pre.data.length) else s

/-! ## The source -/

/-- `FromLocal` (lines 72-89): loads a configuration file on a local location into
bytes. -/
def FromLocal {σ : Type} (lib : Lib σ) (loc : String) (w : σ) : Option Bytes × σ :=
  if !HasPrefix loc "./" then
    (none, w)
  else
    match lib.Abs (lib.Dir ".") w with
    | ((_, some err), w) => (none, lib.Println ["load binary from local err", err] w)
    | ((folder, none), w) =>
      match lib.ReadFile (folder ++ TrimPrefix loc ".") w with
      | ((_, some err), w) => (none, lib.Println ["load binary from local  err", err] w)
      | ((data, none), w) => (data, w)

/-- The method `loadBinary` (lines 43-51): unmarshal `b` into `c`; an error is
fatal. -/
def Config.loadBinary {σ : Type} (lib : Lib σ) (c : Config) (b : Option Bytes) (w : σ) :
    Outcome Config × σ :=
  match lib.Unmarshal b c with
  | (_, some err) => (Outcome.exited 1, lib.Printf "Unmarshal: %v" [err] w)
  | (c, none) => (Outcome.returned c, w)

/-- The loop of `LoadConfig` (lines 62-67): `b` is the variable of that name. -/
def loaderLoop {σ : Type} (location : String) :
    List (Loader σ) → Option Bytes → σ → Option Bytes × σ
  | [], b, w => (b, w)
  | loader :: rest, _, w =>
    match loader location w with
    | (b, w) => if b != none then (b, w) else loaderLoop location rest b w

/-- `LoadConfig` (lines 56-69): use the given loader functions to retrieve a config
data; multiple loaders are tried one by one. -/
def LoadConfig {σ : Type} (lib : Lib σ) (location : String) (loaders : List (Loader σ))
    (w : σ) : Outcome Config × σ :=
  let c : Config := {}
  let loaders := if loaders.length == 0 then [FromLocal lib] else loaders
  match loaderLoop location loaders none w with
  | (b, w) => c.loadBinary lib b w

/-! ## Observing a run -/

/-- Invoke every loader of the list once, in order, with `location`, threading the
world: what each one returned, and the world after the last. -/
def invokeAll {σ : Type} (location : String) : List (Loader σ) → σ → List (Option Bytes) × σ
  | [], w => ([], w)
  | loader :: rest, w =>
    ((loader location w).1 :: (invokeAll location rest (loader location w).2).1,
      (invokeAll location rest (loader location w).2).2)

/-- The loader that returns `b` whatever the location, and leaves the world as it
is; `constLoader none` declines. -/
def constLoader {σ : Type} (b : Option Bytes) : Loader σ :=
  fun _ w => (b, w)

/-- A record of loader invocations: which loader of the list (by position, from 0)
and the location it was given. -/
abbrev CallLog := List (Nat × String)

/-- The operations of `lib` in a world that also carries a `CallLog`, which they
leave alone. -/
def Lib.withLog {σ : Type} (lib : Lib σ) : Lib (σ × CallLog) where
  Dir := lib.Dir
  Abs := fun p w => ((lib.Abs p w.1).1, ((lib.Abs p w.1).2, w.2))
  ReadFile := fun p w => ((lib.ReadFile p w.1).1, ((lib.ReadFile p w.1).2, w.2))
  Println := fun args w => (lib.Println args w.1, w.2)
  Printf := fun format args w => (lib.Printf format args w.1, w.2)
  Unmarshal := lib.Unmarshal

/-- The loader `l` at position `i` of the list, made to enter each of its
invocations in the `CallLog`; it acts on the world and returns as `l` does. -/
def probe {σ : Type} (i : Nat) (l : Loader σ) : Loader (σ × CallLog) :=
  fun location w => ((l location w.1).1, ((l location w.1).2, w.2 ++ [(i, location)]))

/-- The probes of the loaders `ls`, numbered from `i`. -/
def probesFrom {σ : Type} (i : Nat) : List (Loader σ) → List (Loader (σ × CallLog))
  | [] => []
  | l :: ls => probe i l :: probesFrom (i + 1) ls

/-- The probes of the loaders `ls`, numbered from 0. -/
def probes {σ : Type} (ls : List (Loader σ)) : List (Loader (σ × CallLog)) :=
  probesFrom 0 ls

/-- The length of the prefix of `ls` that ends with the first loader that returns
data (a slice that is not `nil`) when the loaders are invoked in order from the
world `w`; the length of `ls` if none does. -/
def invokedCount {σ : Type} (location : String) (ls : List (Loader σ)) (w : σ) : Nat :=
  min ((invokeAll location ls w).1.findIdx (fun r => r.isSome) + 1) ls.length

/-! ## Deserialization into the schema

`yaml.Unmarshal` belongs to `gopkg.in/yaml.v2`, which `Config.go` imports; the
source holds the struct definitions and their tags only.  The decoder below is
written from the specification of the schema (section 4.1) and from those tags.
Turning bytes into a document is left to a parameter. -/

/-- A structured document: a scalar, a sequence of documents, or a mapping whose
entries are kept in document order. -/
inductive Node where
  | scalar (value : String)
  | sequence (items : List Node)
  | mapping (pairs : List (String × Node))

/-- Modelled from the spec: the decoder of `gopkg.in/yaml.v2` is not part of the
source.  A `string` field takes a scalar; any other node is a deserialization
error. -/
def decodeString : Node → Except Error String
  | Node.scalar v => Except.ok v
  | _ => Except.error "yaml: cannot unmarshal into string"

/-- Modelled from the spec: the decoder of `gopkg.in/yaml.v2` is not part of the
source.  `config` values are a flat string-to-string mapping; a nested or other
non-scalar value is a deserialization error. -/
def decodeStringMap : Node → Except Error (List (String × String))
  | Node.mapping pairs =>
    pairs.mapM (fun p => (decodeString p.2).map (fun v => (p.1, v)))
  | _ => Except.error "yaml: cannot unmarshal into map[string]string"

/-- Modelled from the spec: the decoder of `gopkg.in/yaml.v2` is not part of the
source.  A sequence field takes a sequence, each item decoded in order. -/
def decodeSequence {α : Type} (item : Node → Except Error α) : Node → Except Error (List α)
  | Node.sequence items => items.mapM item
  | _ => Except.error "yaml: cannot unmarshal into slice"

/-- Modelled from the spec: the decoder of `gopkg.in/yaml.v2` is not part of the
source.  One entry of a mapping decoded into a `Middleware` (tags `type`,
`config`): an unknown key is ignored. -/
def stepMiddleware (m : Middleware) (p : String × Node) : Except Error Middleware :=
  if p.1 = "type" then (decodeString p.2).map (fun v => { m with Typ := v })
  else if p.1 = "config" then (decodeStringMap p.2).map (fun v => { m with Config := v })
  else Except.ok m

/-- Modelled from the spec: the decoder of `gopkg.in/yaml.v2` is not part of the
source.  A `Middleware` is decoded from a mapping, entry by entry, starting from
the zero value. -/
def decodeMiddleware : Node → Except Error Middleware
  | Node.mapping pairs => pairs.foldlM stepMiddleware {}
  | _ => Except.error "yaml: cannot unmarshal into Middleware"

/-- Modelled from the spec: the decoder of `gopkg.in/yaml.v2` is not part of the
source.  One entry of a mapping decoded into a `Handler` (tags `path`, `type`,
`config`): an unknown key is ignored. -/
def stepHandler (h : Handler) (p : String × Node) : Except Error Handler :=
  if p.1 = "path" then (decodeString p.2).map (fun v => { h with Path := v })
  else if p.1 = "type" then (decodeString p.2).map (fun v => { h with Typ := v })
  else if p.1 = "config" then (decodeStringMap p.2).map (fun v => { h with Config := v })
  else Except.ok h

/-- Modelled from the spec: the decoder of `gopkg.in/yaml.v2` is not part of the
source.  A `Handler` is decoded from a mapping, entry by entry, starting from the
zero value. -/
def decodeHandler : Node → Except Error Handler
  | Node.mapping pairs => pairs.foldlM stepHandler {}
  | _ => Except.error "yaml: cannot unmarshal into Handler"

/-- Modelled from the spec: the decoder of `gopkg.in/yaml.v2` is not part of the
source.  One entry of a mapping decoded into a `Router` (tags `prefix`,
`middlewares`, `handlers`): an unknown key is ignored. -/
def stepRouter (r : Router) (p : String × Node) : Except Error Router :=
  if p.1 = "prefix" then (decodeString p.2).map (fun v => { r with Prefix := v })
  else if p.1 = "middlewares" then
    (decodeSequence decodeMiddleware p.2).map (fun v => { r with Middlewares := v })
  else if p.1 = "handlers" then
    (decodeSequence decodeHandler p.2).map (fun v => { r with Handlers := v })
  else Except.ok r

/-- Modelled from the spec: the decoder of `gopkg.in/yaml.v2` is not part of the
source.  A `Router` is decoded from a mapping, entry by entry, starting from the
zero value. -/
def decodeRouter : Node → Except Error Router
  | Node.mapping pairs => pairs.foldlM stepRouter {}
  | _ => Except.error "yaml: cannot unmarshal into Router"

/-- Modelled from the spec: the decoder of `gopkg.in/yaml.v2` is not part of the
source.  One entry of a mapping decoded into a `Server` (tags `port`, `routers`): an
unknown key is ignored. -/
def stepServer (s : Server) (p : String × Node) : Except Error Server :=
  if p.1 = "port" then (decodeString p.2).map (fun v => { s with Port := v })
  else if p.1 = "routers" then
    (decodeSequence decodeRouter p.2).map (fun v => { s with Routers := v })
  else Except.ok s

/-- Modelled from the spec: the decoder of `gopkg.in/yaml.v2` is not part of the
source.  A `Server` is decoded from a mapping into the value `s`, entry by
entry. -/
def decodeServer (s : Server) : Node → Except Error Server
  | Node.mapping pairs => pairs.foldlM stepServer s
  | _ => Except.error "yaml: cannot unmarshal into Server"

/-- Modelled from the spec: the decoder of `gopkg.in/yaml.v2` is not part of the
source.  One entry of the top-level mapping decoded into a `Config` (tag
`server`): an unknown key is ignored. -/
def stepConfig (c : Config) (p : String × Node) : Except Error Config :=
  if p.1 = "server" then (decodeServer c.Server p.2).map (fun v => { c with Server := v })
  else Except.ok c

/-- Modelled from the spec: the decoder of `gopkg.in/yaml.v2` is not part of the
source.  A `Config` is decoded from the top-level mapping into the value `c`. -/
def decodeConfig (c : Config) : Node → Except Error Config
  | Node.mapping pairs => pairs.foldlM stepConfig c
  | _ => Except.error "yaml: cannot unmarshal into Config"

/-- Modelled from the spec: `yaml.Unmarshal` of `gopkg.in/yaml.v2` is not part of
the source.  `parse` turns the bytes into a document, into no document at all,
or fails; deserialization is all-or-nothing, so on an error the value is left
as it was. -/
def yamlUnmarshal (parse : Option Bytes → Except Error (Option Node)) (b : Option Bytes)
    (c : Config) : Config × Option Error :=
  match parse b with
  | Except.error e => (c, some e)
  | Except.ok none => (c, none)
  | Except.ok (some doc) =>
    match decodeConfig c doc with
    | Except.error e => (c, some e)
    | Except.ok c' => (c', none)

/-! ### Documents that fit the schema -/

/-- The node is a scalar. -/
def isScalar : Node → Bool
  | Node.scalar _ => true
  | _ => false

/-- The node is a mapping. -/
def isMapping : Node → Bool
  | Node.mapping _ => true
  | _ => false

/-- The entries of a mapping; none for another node. -/
def entries : Node → List (String × Node)
  | Node.mapping pairs => pairs
  | _ => []

/-- The node is a sequence. -/
def isSequence : Node → Bool
  | Node.sequence _ => true
  | _ => false

/-- The items of a sequence; none for another node. -/
def items : Node → List Node
  | Node.sequence xs => xs
  | _ => []

/-- The mapping has an entry with key `k`. -/
def hasKey (k : String) (n : Node) : Bool :=
  (entries n).any (fun p => p.1 == k)

/-- A `config` value that fits the schema: a mapping of scalars. -/
def validStringMap (n : Node) : Bool :=
  isMapping n && (entries n).all (fun p => isScalar p.2)

/-- A middleware document that fits the schema. -/
def validMiddleware (n : Node) : Bool :=
  isMapping n && (entries n).all (fun p =>
    if p.1 = "type" then isScalar p.2
    else if p.1 = "config" then validStringMap p.2
    else true)

/-- A handler document that fits the schema. -/
def validHandler (n : Node) : Bool :=
  isMapping n && (entries n).all (fun p =>
    if p.1 = "path" then isScalar p.2
    else if p.1 = "type" then isScalar p.2
    else if p.1 = "config" then validStringMap p.2
    else true)

/-- A router document that fits the schema. -/
def validRouter (n : Node) : Bool :=
  isMapping n && (entries n).all (fun p =>
    if p.1 = "prefix" then isScalar p.2
    else if p.1 = "middlewares" then isSequence p.2 && (items p.2).all validMiddleware
    else if p.1 = "handlers" then isSequence p.2 && (items p.2).all validHandler
    else true)

/-- A server document that fits the schema. -/
def validServer (n : Node) : Bool :=
  isMapping n && (entries n).all (fun p =>
    if p.1 = "port" then isScalar p.2
    else if p.1 = "routers" then isSequence p.2 && (items p.2).all validRouter
    else true)

/-- A document that fits the schema of `Config`: a mapping in which every key the
schema knows has a value of the right shape.  No key is required. -/
def validConfig (n : Node) : Bool :=
  isMapping n && (entries n).all (fun p =>
    if p.1 = "server" then validServer p.2 else true)

/-- The router documents of a server document: the items of its `routers`
sequences. -/
def serverRouterNodes (n : Node) : List Node :=
  (entries n).flatMap (fun p => if p.1 = "routers" then items p.2 else [])

/-- The router documents of a document: those of its server mappings. -/
def routerNodes (n : Node) : List Node :=
  (entries n).flatMap (fun p => if p.1 = "server" then serverRouterNodes p.2 else [])

/-- No server mapping of the document has the key `routers`. -/
def omitsRouters (n : Node) : Bool :=
  (entries n).all (fun p => if p.1 = "server" then !hasKey "routers" p.2 else true)

/-! ## Worlds and libraries for the examples -/

/-- A call of an imported operation that reaches outside the process. -/
inductive Event where
  | abs (path : String)
  | readFile (path : String)
  | println (args : List String)
  | printf (format : String) (args : List String)
  deriving DecidableEq, Repr

/-- A small world: what `filepath.Abs(".")` answers, the files by path, and the
calls made so far. -/
structure World where
  cwd : String × Option Error
  files : List (String × Bytes)
  events : List Event
  deriving DecidableEq, Repr

/-- The imported operations on a `World`, each call recorded; `unmarshal` stands
for `yaml.Unmarshal`.  `Dir` is only ever applied to `"."`, whose directory is
`"."`. -/
def recLib (unmarshal : Option Bytes → Config → Config × Option Error) : Lib World where
  Dir := fun _ => "."
  Abs := fun p w => (w.cwd, { w with events := w.events ++ [Event.abs p] })
  ReadFile := fun p w =>
    (match w.files.lookup p with
      | some data => (some data, none)
      | none => (none, some ("open " ++ p ++ ": no such file or directory")),
     { w with events := w.events ++ [Event.readFile p] })
  Println := fun args w => { w with events := w.events ++ [Event.println args] }
  Printf := fun format args w => { w with events := w.events ++ [Event.printf format args] }
  Unmarshal := unmarshal

/-- The bytes of an ASCII text. -/
def ascii (s : String) : Bytes :=
  s.data.map (fun ch => Fin.ofNat ch.toNat)

/-- The document `server: {port: "80"}`. -/
def doc80 : Node :=
  Node.mapping [("server", Node.mapping [("port", Node.scalar "80")])]

/-- A stand-in for the parser on the inputs of the examples: a payload that is
absent or of length zero holds no document (so `gopkg.in/yaml.v2` reads it), the
text `server: {port: "80"}` is `doc80`, and nothing else is understood. -/
def sampleParse (b : Option Bytes) : Except Error (Option Node) :=
  match b with
  | none => Except.ok none
  | some bs =>
    if bs = [] then Except.ok none
    else if bs = ascii "server: \x7bport: \"80\"\x7d" then Except.ok (some doc80)
    else Except.error "yaml: document not understood"

/-- The recording library with the schema decoder behind `sampleParse`. -/
def sampleLib : Lib World :=
  recLib (yamlUnmarshal sampleParse)

/-- A world whose working directory is `/srv/app`, holding `config.yaml` there. -/
def sampleWorld : World where
  cwd := ("/srv/app", none)
  files := [("/srv/app/config.yaml", ascii "server: \x7bport: \"80\"\x7d")]
  events := []

/-! ## Lemmas on the loop -/

theorem loaderLoop_cons_irrel {σ : Type} (location : String) (l : Loader σ)
    (ls : List (Loader σ)) (b b' : Option Bytes) (w : σ) :
    loaderLoop location (l :: ls) b w = loaderLoop location (l :: ls) b' w := by
  simp [loaderLoop]

theorem loaderLoop_cons_none {σ : Type} (location : String) (l : Loader σ)
    (ls : List (Loader σ)) (b : Option Bytes) (w : σ) (h : (l location w).1 = none) :
    loaderLoop location (l :: ls) b w = loaderLoop location ls none (l location w).2 := by
  simp [loaderLoop, h]

theorem loaderLoop_skip {σ : Type} (location : String) (pre : List (Loader σ))
    (sel : Loader σ) (post : List (Loader σ)) (b : Option Bytes) (w : σ)
    (hpre : ∀ r ∈ (invokeAll location pre w).1, r = none) :
    loaderLoop location (pre ++ sel :: post) b w =
      loaderLoop location (sel :: post) none (invokeAll location pre w).2 := by
  induction pre generalizing b w with
  | nil => simpa [invokeAll] using loaderLoop_cons_irrel location sel post b none w
  | cons l ls ih =>
    have h1 : (l location w).1 = none := hpre _ (by simp [invokeAll])
    have h2 : ∀ r ∈ (invokeAll location ls (l location w).2).1, r = none := by
      intro r hr
      exact hpre r (by simp [invokeAll, hr])
    rw [List.cons_append, loaderLoop_cons_none location l _ b w h1, ih none _ h2]
    rfl

theorem loaderLoop_exhausted {σ : Type} (location : String) (ls : List (Loader σ)) (w : σ)
    (h : ∀ r ∈ (invokeAll location ls w).1, r = none) :
    loaderLoop location ls none w = (none, (invokeAll location ls w).2) := by
  induction ls generalizing w with
  | nil => simp [loaderLoop, invokeAll]
  | cons l ls ih =>
    have h1 : (l location w).1 = none := h _ (by simp [invokeAll])
    have h2 : ∀ r ∈ (invokeAll location ls (l location w).2).1, r = none := by
      intro r hr
      exact h r (by simp [invokeAll, hr])
    rw [loaderLoop_cons_none location l _ none w h1, ih _ h2]
    rfl

theorem loaderLoop_hit {σ : Type} (location : String) (sel : Loader σ)
    (post : List (Loader σ)) (b0 : Option Bytes) (b : Bytes) (w w' : σ)
    (hsel : sel location w = (some b, w')) :
    loaderLoop location (sel :: post) b0 w = (some b, w') := by
  simp [loaderLoop, hsel]

/-! ## Lemmas on strings -/

theorem dotSlash_data (rest : String) : ("./" ++ rest).data = '.' :: '/' :: rest.data := by
  simp [String.data_append]

theorem HasPrefix_dotSlash_iff (loc : String) :
    HasPrefix loc "./" = true ↔ ∃ rest : String, loc = "./" ++ rest := by
  constructor
  · intro h
    simp only [HasPrefix, Bool.and_eq_true, decide_eq_true_eq, beq_iff_eq] at h
    refine ⟨String.mk (loc.data.drop 2), ?_⟩
    apply String.ext
    rw [dotSlash_data]
    have h2 : loc.data.take 2 = ['.', '/'] := h.2
    calc loc.data = loc.data.take 2 ++ loc.data.drop 2 := (List.take_append_drop 2 _).symm
      _ = '.' :: '/' :: loc.data.drop 2 := by rw [h2]; rfl
  · rintro ⟨rest, rfl⟩
    simp [HasPrefix, dotSlash_data]

theorem TrimPrefix_dot (rest : String) : TrimPrefix ("./" ++ rest) "." = "/" ++ rest := by
  have h : HasPrefix ("./" ++ rest) "." = true := by
    simp [HasPrefix, dotSlash_data]
  simp only [TrimPrefix, h, if_true]
  apply String.ext
  simp [dotSlash_data, String.data_append]

/-! ## Lemmas on the call log -/

theorem FromLocal_withLog {σ : Type} (lib : Lib σ) (loc : String) (w : σ) (log : CallLog) :
    FromLocal lib.withLog loc (w, log) = ((FromLocal lib loc w).1, ((FromLocal lib loc w).2, log)) := by
  unfold FromLocal
  by_cases hp : HasPrefix loc "./" = true
  · simp only [hp, Bool.not_true, Bool.false_eq_true, if_false, Lib.withLog]
    rcases h1 : lib.Abs (lib.Dir ".") w with ⟨⟨folder, err⟩, w1⟩
    cases err with
    | some e => rfl
    | none =>
      simp only []
      rcases h2 : lib.ReadFile (folder ++ TrimPrefix loc ".") w1 with ⟨⟨data, err⟩, w2⟩
      cases err <;> rfl
  · simp [hp]

theorem loadBinary_withLog {σ : Type} (lib : Lib σ) (c : Config) (b : Option Bytes) (w : σ)
    (log : CallLog) :
    Config.loadBinary lib.withLog c b (w, log) =
      ((Config.loadBinary lib c b w).1, ((Config.loadBinary lib c b w).2, log)) := by
  unfold Config.loadBinary
  simp only [Lib.withLog]
  rcases lib.Unmarshal b c with ⟨c', err⟩
  cases err <;> rfl

theorem invokedCount_cons {σ : Type} (location : String) (l : Loader σ)
    (ls : List (Loader σ)) (w : σ) :
    invokedCount location (l :: ls) w =
      if (l location w).1.isSome then 1 else invokedCount location ls (l location w).2 + 1 := by
  unfold invokedCount
  by_cases h : (l location w).1.isSome
  · simp [invokeAll, List.findIdx_cons, h]
  · simp only [invokeAll, List.findIdx_cons, h, List.length_cons, cond_false,
      Bool.false_eq_true, if_false]
    generalize List.findIdx (fun r => r.isSome)
      (invokeAll location ls (l location w).2).1 = k
    generalize ls.length = n
    omega

theorem loaderLoop_probes {σ : Type} (location : String) (ls : List (Loader σ))
    (i : Nat) (b : Option Bytes) (w : σ) (log : CallLog) :
    loaderLoop location (probesFrom i ls) b (w, log) =
      ((loaderLoop location ls b w).1, ((loaderLoop location ls b w).2,
        log ++ (List.range' i (invokedCount location ls w)).map (fun j => (j, location)))) := by
  induction ls generalizing i b w log with
  | nil => simp [probesFrom, loaderLoop, invokedCount]
  | cons l ls ih =>
    rw [invokedCount_cons]
    rcases hl : l location w with ⟨r, w1⟩
    cases r with
    | none =>
      simp only [probesFrom, loaderLoop, probe, hl]
      simp [ih, List.range'_succ]
    | some v =>
      simp [probesFrom, loaderLoop, probe, hl, List.range'_succ]

/-! ## The loader chain -/

/-- C1. When the loaders before `sel`, invoked in list order, all return absent and
`sel` then returns the present bytes `b`, `LoadConfig` deserializes exactly `b`
into a new zero-valued `Config`: its result is that of `loadBinary` on `Config{}`
and `b`, in the world `sel` left.  The loaders after `sel` play no part. -/
theorem LoadConfig_first_present {σ : Type} (lib : Lib σ) (location : String)
    (pre : List (Loader σ)) (sel : Loader σ) (post : List (Loader σ)) (b : Bytes) (w w' : σ)
    (hpre : ∀ r ∈ (invokeAll location pre w).1, r = none)
    (hsel : sel location (invokeAll location pre w).2 = (some b, w')) :
    LoadConfig lib location (pre ++ sel :: post) w =
      Config.loadBinary lib ({} : Config) (some b) w' := by
  have hne : ((pre ++ sel :: post).length == 0) = false := by simp
  simp only [LoadConfig, hne, Bool.false_eq_true, if_false]
  rw [loaderLoop_skip location pre sel post none w hpre,
    loaderLoop_hit location sel post none b _ w' hsel]

/-- C1, at `[A, B]` with `A` absent and `B` returning the bytes of
`server: {port: "80"}`: the bytes of `B` are deserialized. -/
theorem LoadConfig_first_present_witness :
    (∀ r ∈ (invokeAll "remote" [constLoader none] sampleWorld).1, r = none) ∧
    constLoader (some (ascii "server: \x7bport: \"80\"\x7d")) "remote"
        (invokeAll "remote" [constLoader none] sampleWorld).2 =
      (some (ascii "server: \x7bport: \"80\"\x7d"), sampleWorld) ∧
    LoadConfig sampleLib "remote"
        ([constLoader none] ++
          constLoader (some (ascii "server: \x7bport: \"80\"\x7d")) :: []) sampleWorld =
      Config.loadBinary sampleLib ({} : Config)
        (some (ascii "server: \x7bport: \"80\"\x7d")) sampleWorld :=
  ⟨by simp [invokeAll, constLoader], rfl,
    LoadConfig_first_present sampleLib "remote" [constLoader none]
      (constLoader (some (ascii "server: \x7bport: \"80\"\x7d"))) [] _ sampleWorld sampleWorld
      (by simp [invokeAll, constLoader]) rfl⟩

/-- C2. Run with each loader made to enter its invocations in a call log,
`LoadConfig` ends as it does without the log, and the log is then
`(0, location), (1, location), ...` through the first loader that returns data
(through the whole list if none does): each loader of that prefix invoked once, in
list order, with the location unchanged, and no loader after the selected one
invoked. -/
theorem LoadConfig_invocations {σ : Type} (lib : Lib σ) (location : String)
    (ls : List (Loader σ)) (w : σ) :
    LoadConfig lib.withLog location (probes ls) (w, []) =
      ((LoadConfig lib location ls w).1, ((LoadConfig lib location ls w).2,
        (List.range (invokedCount location ls w)).map (fun i => (i, location)))) := by
  cases ls with
  | nil =>
    simp only [LoadConfig, probes, probesFrom, List.length_nil, beq_self_eq_true, if_true,
      loaderLoop, FromLocal_withLog]
    split <;> simp [loadBinary_withLog, invokedCount]
  | cons l ls =>
    have hne : ((probesFrom 0 (l :: ls) : List (Loader (σ × CallLog))).length == 0) = false := by
      simp [probesFrom]
    have hne2 : ((l :: ls).length == 0) = false := by simp
    simp only [LoadConfig, probes, hne, hne2, Bool.false_eq_true, if_false]
    rw [loaderLoop_probes]
    simp only [List.nil_append, loadBinary_withLog, List.range_eq_range']

/-- C3. `LoadConfig(location)` with no loader is `LoadConfig(location, FromLocal)`:
the same outcome and the same world afterwards. -/
theorem LoadConfig_default_loader {σ : Type} (lib : Lib σ) (location : String) (w : σ) :
    LoadConfig lib location [] w = LoadConfig lib location [FromLocal lib] w := by
  simp [LoadConfig]

/-- C4, refuted as stated: a first loader that returns a present slice of length
zero is selected, and the second loader is not invoked; with a first loader that
returns `nil` the second one is invoked. -/
theorem empty_slice_not_like_nil :
    (LoadConfig sampleLib.withLog "remote"
        (probes [constLoader (some []),
          constLoader (some (ascii "server: \x7bport: \"80\"\x7d"))])
        (sampleWorld, [])).2.2 = [(0, "remote")] ∧
    (LoadConfig sampleLib.withLog "remote"
        (probes [constLoader none,
          constLoader (some (ascii "server: \x7bport: \"80\"\x7d"))])
        (sampleWorld, [])).2.2 = [(0, "remote"), (1, "remote")] := by
  decide

/-- C4, amended. The selection check is `b != nil`: a first loader that returns a
slice that is present and of length zero is selected, its zero bytes are what is
deserialized, and whatever loaders follow take no part. -/
theorem LoadConfig_selects_empty_slice {σ : Type} (lib : Lib σ) (location : String)
    (A : Loader σ) (rest : List (Loader σ)) (w w' : σ)
    (hA : A location w = (some [], w')) :
    LoadConfig lib location (A :: rest) w = Config.loadBinary lib ({} : Config) (some []) w' := by
  simp [LoadConfig, loaderLoop, hA]

/-- C4 amended, at `[A, B]` with `A` returning the empty slice. -/
theorem LoadConfig_selects_empty_slice_witness :
    constLoader (some []) "remote" sampleWorld = (some [], sampleWorld) ∧
    LoadConfig sampleLib "remote"
        (constLoader (some []) :: [constLoader (some (ascii "server: \x7bport: \"80\"\x7d"))])
        sampleWorld =
      Config.loadBinary sampleLib ({} : Config) (some []) sampleWorld :=
  ⟨rfl, LoadConfig_selects_empty_slice sampleLib "remote" (constLoader (some []))
    [constLoader (some (ascii "server: \x7bport: \"80\"\x7d"))] sampleWorld sampleWorld rfl⟩

/-- C5, refuted as stated: with a decoder that reads an absent payload as a stream
without a document and reports no error (so does `gopkg.in/yaml.v2`), a loader
list whose only loader returns absent makes `LoadConfig` return the zero-valued
`Config`, with nothing printed. -/
theorem exhausted_returns_zero_Config :
    (∀ r ∈ (invokeAll "remote" [constLoader none] sampleWorld).1, r = none) ∧
    LoadConfig sampleLib "remote" [constLoader none] sampleWorld =
      (Outcome.returned ({} : Config), sampleWorld) := by
  decide

/-- C5, amended. When every loader `LoadConfig` tries (the given ones, `FromLocal`
alone if none is given) returns absent, the deserialization step receives the
absent payload and a new zero-valued `Config`; `LoadConfig` returns a `Config`
exactly when `yaml.Unmarshal` reports no error on that payload, and when it
reports one the call ends the process with status 1 after printing it. -/
theorem LoadConfig_exhausted {σ : Type} (lib : Lib σ) (location : String)
    (loaders : List (Loader σ)) (w : σ)
    (h : ∀ r ∈ (invokeAll location
        (if loaders.length == 0 then [FromLocal lib] else loaders) w).1, r = none) :
    LoadConfig lib location loaders w =
        Config.loadBinary lib ({} : Config) none
          (invokeAll location (if loaders.length == 0 then [FromLocal lib] else loaders) w).2 ∧
    (∀ c, (LoadConfig lib location loaders w).1 = Outcome.returned c ↔
        lib.Unmarshal none ({} : Config) = (c, none)) ∧
    (∀ c e, lib.Unmarshal none ({} : Config) = (c, some e) →
        LoadConfig lib location loaders w =
          (Outcome.exited 1, lib.Printf "Unmarshal: %v" [e]
            (invokeAll location
              (if loaders.length == 0 then [FromLocal lib] else loaders) w).2)) := by
  have hrun : LoadConfig lib location loaders w =
      Config.loadBinary lib ({} : Config) none
        (invokeAll location (if loaders.length == 0 then [FromLocal lib] else loaders) w).2 := by
    simp only [LoadConfig]
    rw [loaderLoop_exhausted location _ w h]
  refine ⟨hrun, ?_, ?_⟩
  · intro c
    rw [hrun]
    unfold Config.loadBinary
    rcases hu : lib.Unmarshal none ({} : Config) with ⟨c', err⟩
    cases err <;> simp
  · intro c e hu
    rw [hrun]
    simp [Config.loadBinary, hu]

/-- C5 amended, at a single loader that declines. -/
theorem LoadConfig_exhausted_witness :
    (∀ r ∈ (invokeAll "remote"
        (if ([constLoader none] : List (Loader World)).length == 0 then [FromLocal sampleLib]
          else [constLoader none])
        sampleWorld).1, r = none) ∧
    LoadConfig sampleLib "remote" [constLoader none] sampleWorld =
      Config.loadBinary sampleLib ({} : Config) none
        (invokeAll "remote"
          (if ([constLoader none] : List (Loader World)).length == 0 then [FromLocal sampleLib]
            else [constLoader none])
          sampleWorld).2 :=
  ⟨by decide,
    (LoadConfig_exhausted sampleLib "remote" [constLoader none] sampleWorld (by decide)).1⟩

/-- C6. `LoadConfig` returns a `Config` if and only if `yaml.Unmarshal` of the
selected bytes into the new zero-valued `Config` reports no error, and then it
returns the value `Unmarshal` left; when `Unmarshal` reports an error the call
ends the process with status 1 and no `Config` comes back, whatever `Unmarshal`
had written into it. -/
theorem LoadConfig_all_or_nothing {σ : Type} (lib : Lib σ) (location : String)
    (loaders : List (Loader σ)) (w : σ) :
    ((∃ c, (LoadConfig lib location loaders w).1 = Outcome.returned c) ↔
      (lib.Unmarshal (loaderLoop location
        (if loaders.length == 0 then [FromLocal lib] else loaders) none w).1
          ({} : Config)).2 = none) ∧
    (∀ c, (LoadConfig lib location loaders w).1 = Outcome.returned c →
      c = (lib.Unmarshal (loaderLoop location
        (if loaders.length == 0 then [FromLocal lib] else loaders) none w).1
          ({} : Config)).1) ∧
    ((lib.Unmarshal (loaderLoop location
        (if loaders.length == 0 then [FromLocal lib] else loaders) none w).1
          ({} : Config)).2 ≠ none →
      (LoadConfig lib location loaders w).1 = Outcome.exited 1) := by
  simp only [LoadConfig]
  rcases loaderLoop location (if loaders.length == 0 then [FromLocal lib] else loaders)
    none w with ⟨b, w1⟩
  simp only [Config.loadBinary]
  rcases lib.Unmarshal b ({} : Config) with ⟨c', err⟩
  cases err <;> simp

/-! ## The local loader -/

/-- C7. For a location that does not start with `./`, `FromLocal` returns absent
and leaves the world as it found it, under every interpretation of the imported
operations: the working directory is not resolved and no file is read. -/
theorem FromLocal_gate {σ : Type} (lib : Lib σ) (loc : String) (w : σ)
    (h : ¬ ∃ rest : String, loc = "./" ++ rest) :
    FromLocal lib loc w = (none, w) := by
  have hp : HasPrefix loc "./" = false := by
    cases hh : HasPrefix loc "./" with
    | false => rfl
    | true => exact absurd ((HasPrefix_dotSlash_iff loc).mp hh) h
  simp [FromLocal, hp]

/-- C7, at `config.yaml`: absent, and no call recorded. -/
theorem FromLocal_gate_witness :
    (¬ ∃ rest : String, "config.yaml" = "./" ++ rest) ∧
    FromLocal sampleLib "config.yaml" sampleWorld = (none, sampleWorld) ∧
    FromLocal sampleLib "/srv/app/config.yaml" sampleWorld = (none, sampleWorld) ∧
    FromLocal sampleLib "" sampleWorld = (none, sampleWorld) :=
  have h : ¬ ∃ rest : String, "config.yaml" = "./" ++ rest := by
    rw [← HasPrefix_dotSlash_iff]
    decide
  ⟨h, FromLocal_gate sampleLib "config.yaml" sampleWorld h,
    FromLocal_gate sampleLib "/srv/app/config.yaml" sampleWorld (by
      rw [← HasPrefix_dotSlash_iff]
      decide),
    FromLocal_gate sampleLib "" sampleWorld (by
      rw [← HasPrefix_dotSlash_iff]
      decide)⟩

/-- C8. For a location `./rest`: when resolving the working directory reports an
error `FromLocal` returns absent; when reading the file reports an error it
returns absent; when neither does it returns the bytes `ReadFile` returned, and
the world `ReadFile` left.  In each case it returns: the error goes to the log
and not to the caller. -/
theorem FromLocal_swallows_errors {σ : Type} (lib : Lib σ) (rest : String) (w : σ) :
    (∀ folder e w1, lib.Abs (lib.Dir ".") w = ((folder, some e), w1) →
      FromLocal lib ("./" ++ rest) w =
        (none, lib.Println ["load binary from local err", e] w1)) ∧
    (∀ folder w1 data e w2, lib.Abs (lib.Dir ".") w = ((folder, none), w1) →
      lib.ReadFile (folder ++ TrimPrefix ("./" ++ rest) ".") w1 = ((data, some e), w2) →
      FromLocal lib ("./" ++ rest) w =
        (none, lib.Println ["load binary from local  err", e] w2)) ∧
    (∀ folder w1 data w2, lib.Abs (lib.Dir ".") w = ((folder, none), w1) →
      lib.ReadFile (folder ++ TrimPrefix ("./" ++ rest) ".") w1 = ((data, none), w2) →
      FromLocal lib ("./" ++ rest) w = (data, w2)) := by
  have hp : HasPrefix ("./" ++ rest) "./" = true :=
    (HasPrefix_dotSlash_iff _).mpr ⟨rest, rfl⟩
  refine ⟨?_, ?_, ?_⟩
  · intro folder e w1 h1
    simp [FromLocal, hp, h1]
  · intro folder w1 data e w2 h1 h2
    simp [FromLocal, hp, h1, h2]
  · intro folder w1 data w2 h1 h2
    simp [FromLocal, hp, h1, h2]

/-- C8, at `./config.yaml` in the sample world, and at `./missing.yaml`, which is
not there. -/
theorem FromLocal_swallows_errors_witness :
    FromLocal sampleLib ("./" ++ "config.yaml") sampleWorld =
      (some (ascii "server: \x7bport: \"80\"\x7d"),
        { sampleWorld with
          events := [Event.abs ".", Event.readFile "/srv/app/config.yaml"] }) ∧
    FromLocal sampleLib ("./" ++ "missing.yaml") sampleWorld =
      (none, sampleLib.Println ["load binary from local  err",
          "open /srv/app/missing.yaml: no such file or directory"]
        { sampleWorld with
          events := [Event.abs ".", Event.readFile "/srv/app/missing.yaml"] }) :=
  ⟨(FromLocal_swallows_errors sampleLib "config.yaml" sampleWorld).2.2 "/srv/app"
      { sampleWorld with events := [Event.abs "."] } _ _ rfl (by decide),
    (FromLocal_swallows_errors sampleLib "missing.yaml" sampleWorld).2.1 "/srv/app"
      { sampleWorld with events := [Event.abs "."] } none _ _ rfl (by decide)⟩

/-- C9. For a location `./rest`, with `d` the working directory as
`filepath.Abs(filepath.Dir("."))` returns it, exactly the leading `.` is trimmed
from the location and the one path `FromLocal` reads is `d ++ "/" ++ rest`: its
result is that of `ioutil.ReadFile` on this path, an error turned into absent. -/
theorem FromLocal_reads_under_cwd {σ : Type} (lib : Lib σ) (rest d : String) (w w1 : σ)
    (hd : lib.Abs (lib.Dir ".") w = ((d, none), w1)) :
    TrimPrefix ("./" ++ rest) "." = "/" ++ rest ∧
    FromLocal lib ("./" ++ rest) w =
      match lib.ReadFile (d ++ "/" ++ rest) w1 with
      | ((_, some err), w2) => (none, lib.Println ["load binary from local  err", err] w2)
      | ((data, none), w2) => (data, w2) := by
  have hp : HasPrefix ("./" ++ rest) "./" = true :=
    (HasPrefix_dotSlash_iff _).mpr ⟨rest, rfl⟩
  refine ⟨TrimPrefix_dot rest, ?_⟩
  simp only [FromLocal, hp, Bool.not_true, Bool.false_eq_true, if_false, hd, TrimPrefix_dot,
    String.append_assoc]

/-- C9, at `./config.yaml` with working directory `/srv/app`: the file read is
`/srv/app/config.yaml`. -/
theorem FromLocal_reads_under_cwd_witness :
    sampleLib.Abs (sampleLib.Dir ".") sampleWorld =
      (("/srv/app", none), { sampleWorld with events := [Event.abs "."] }) ∧
    (FromLocal sampleLib ("./" ++ "config.yaml") sampleWorld).2.events =
      [Event.abs ".", Event.readFile ("/srv/app" ++ "/" ++ "config.yaml")] :=
  ⟨rfl, by
    rw [(FromLocal_reads_under_cwd sampleLib "config.yaml" "/srv/app" sampleWorld
      { sampleWorld with events := [Event.abs "."] } rfl).2]
    decide⟩

/-! ## Deserialization of documents that fit the schema -/

theorem mapM_ok {α β : Type} (f : α → Except Error β) (l : List α)
    (h : ∀ a ∈ l, ∃ b, f a = Except.ok b) : ∃ bs, l.mapM f = Except.ok bs := by
  induction l with
  | nil => exact ⟨[], by rw [List.mapM_nil]; rfl⟩
  | cons a l ih =>
    obtain ⟨b, hb⟩ := h a (by simp)
    obtain ⟨bs, hbs⟩ := ih (fun x hx => h x (by simp [hx]))
    exact ⟨b :: bs, by rw [List.mapM_cons, hb, hbs]; rfl⟩

theorem mapM_ok_mem {α β : Type} (f : α → Except Error β) (l : List α) (bs : List β)
    (h : l.mapM f = Except.ok bs) : ∀ b ∈ bs, ∃ a ∈ l, f a = Except.ok b := by
  induction l generalizing bs with
  | nil =>
    rw [List.mapM_nil] at h
    cases h
    simp
  | cons a l ih =>
    rw [List.mapM_cons] at h
    cases hfa : f a with
    | error e => rw [hfa] at h; cases h
    | ok b0 =>
      cases hl : l.mapM f with
      | error e => rw [hfa, hl] at h; cases h
      | ok bs0 =>
        rw [hfa, hl] at h
        cases h
        intro b hb
        rcases List.mem_cons.mp hb with rfl | hb
        · exact ⟨a, by simp, hfa⟩
        · obtain ⟨x, hx, hfx⟩ := ih bs0 hl b hb
          exact ⟨x, by simp [hx], hfx⟩

theorem foldlM_ok_of_step {α β : Type} (step : β → α → Except Error β) (P : β → Prop)
    (l : List α) (h : ∀ a ∈ l, ∀ b, P b → ∃ b', step b a = Except.ok b' ∧ P b')
    (b0 : β) (h0 : P b0) : ∃ b', l.foldlM step b0 = Except.ok b' ∧ P b' := by
  induction l generalizing b0 with
  | nil => exact ⟨b0, by rw [List.foldlM_nil]; rfl, h0⟩
  | cons a l ih =>
    obtain ⟨b1, hb1, hP1⟩ := h a (by simp) b0 h0
    obtain ⟨b2, hb2, hP2⟩ := ih (fun x hx => h x (by simp [hx])) b1 hP1
    exact ⟨b2, by rw [List.foldlM_cons, hb1]; exact hb2, hP2⟩

theorem decodeString_ok (n : Node) (h : isScalar n = true) :
    ∃ v, decodeString n = Except.ok v := by
  cases n with
  | scalar v => exact ⟨v, rfl⟩
  | sequence xs => simp [isScalar] at h
  | mapping ps => simp [isScalar] at h

theorem decodeStringMap_ok (n : Node) (h : validStringMap n = true) :
    ∃ m, decodeStringMap n = Except.ok m := by
  cases n with
  | scalar v => simp [validStringMap, isMapping] at h
  | sequence xs => simp [validStringMap, isMapping] at h
  | mapping ps =>
    simp only [validStringMap, isMapping, entries, Bool.true_and, List.all_eq_true] at h
    apply mapM_ok
    intro p hp
    obtain ⟨v, hv⟩ := decodeString_ok p.2 (h p hp)
    exact ⟨(p.1, v), by rw [hv]; rfl⟩

theorem decodeSequence_ok {α : Type} (item : Node → Except Error α) (n : Node)
    (hs : isSequence n = true) (h : ∀ x ∈ items n, ∃ b, item x = Except.ok b) :
    ∃ bs, decodeSequence item n = Except.ok bs := by
  cases n with
  | scalar v => simp [isSequence] at hs
  | mapping ps => simp [isSequence] at hs
  | sequence xs => exact mapM_ok item xs h

theorem decodeMiddleware_ok (n : Node) (h : validMiddleware n = true) :
    ∃ m, decodeMiddleware n = Except.ok m := by
  cases n with
  | scalar v => simp [validMiddleware, isMapping] at h
  | sequence xs => simp [validMiddleware, isMapping] at h
  | mapping ps =>
    simp only [validMiddleware, isMapping, entries, Bool.true_and, List.all_eq_true] at h
    obtain ⟨m, hm, _⟩ := foldlM_ok_of_step stepMiddleware (fun _ => True) ps (by
      intro p hp m _
      have hv := h p hp
      unfold stepMiddleware
      by_cases h1 : p.1 = "type"
      · rw [if_pos h1] at hv ⊢
        obtain ⟨v, hv⟩ := decodeString_ok p.2 hv
        exact ⟨{ m with Typ := v }, by rw [hv]; rfl, trivial⟩
      · by_cases h2 : p.1 = "config"
        · rw [if_neg h1, if_pos h2] at hv ⊢
          obtain ⟨v, hv⟩ := decodeStringMap_ok p.2 hv
          exact ⟨{ m with Config := v }, by rw [hv]; rfl, trivial⟩
        · rw [if_neg h1, if_neg h2]
          exact ⟨m, rfl, trivial⟩) {} trivial
    exact ⟨m, hm⟩

theorem decodeHandler_ok (n : Node) (h : validHandler n = true) :
    ∃ m, decodeHandler n = Except.ok m := by
  cases n with
  | scalar v => simp [validHandler, isMapping] at h
  | sequence xs => simp [validHandler, isMapping] at h
  | mapping ps =>
    simp only [validHandler, isMapping, entries, Bool.true_and, List.all_eq_true] at h
    obtain ⟨m, hm, _⟩ := foldlM_ok_of_step stepHandler (fun _ => True) ps (by
      intro p hp m _
      have hv := h p hp
      unfold stepHandler
      by_cases h0 : p.1 = "path"
      · rw [if_pos h0] at hv ⊢
        obtain ⟨v, hv⟩ := decodeString_ok p.2 hv
        exact ⟨{ m with Path := v }, by rw [hv]; rfl, trivial⟩
      · by_cases h1 : p.1 = "type"
        · rw [if_neg h0, if_pos h1] at hv ⊢
          obtain ⟨v, hv⟩ := decodeString_ok p.2 hv
          exact ⟨{ m with Typ := v }, by rw [hv]; rfl, trivial⟩
        · by_cases h2 : p.1 = "config"
          · rw [if_neg h0, if_neg h1, if_pos h2] at hv ⊢
            obtain ⟨v, hv⟩ := decodeStringMap_ok p.2 hv
            exact ⟨{ m with Config := v }, by rw [hv]; rfl, trivial⟩
          · rw [if_neg h0, if_neg h1, if_neg h2]
            exact ⟨m, rfl, trivial⟩) {} trivial
    exact ⟨m, hm⟩

/-- A step on a router entry that fits the schema succeeds, and leaves alone the
sequences it is not the key of. -/
theorem stepRouter_ok (r : Router) (p : String × Node)
    (hv : (if p.1 = "prefix" then isScalar p.2
      else if p.1 = "middlewares" then isSequence p.2 && (items p.2).all validMiddleware
      else if p.1 = "handlers" then isSequence p.2 && (items p.2).all validHandler
      else true) = true) :
    ∃ r', stepRouter r p = Except.ok r' ∧
      (p.1 ≠ "middlewares" → r'.Middlewares = r.Middlewares) ∧
      (p.1 ≠ "handlers" → r'.Handlers = r.Handlers) := by
  unfold stepRouter
  by_cases h0 : p.1 = "prefix"
  · rw [if_pos h0] at hv ⊢
    obtain ⟨v, hv⟩ := decodeString_ok p.2 hv
    exact ⟨{ r with Prefix := v }, by rw [hv]; rfl, fun _ => rfl, fun _ => rfl⟩
  · by_cases h1 : p.1 = "middlewares"
    · rw [if_neg h0, if_pos h1] at hv ⊢
      simp only [Bool.and_eq_true, List.all_eq_true] at hv
      obtain ⟨v, hv⟩ := decodeSequence_ok decodeMiddleware p.2 hv.1
        (fun x hx => decodeMiddleware_ok x (hv.2 x hx))
      exact ⟨{ r with Middlewares := v }, by rw [hv]; rfl, fun hne => absurd h1 hne,
        fun _ => rfl⟩
    · by_cases h2 : p.1 = "handlers"
      · rw [if_neg h0, if_neg h1, if_pos h2] at hv ⊢
        simp only [Bool.and_eq_true, List.all_eq_true] at hv
        obtain ⟨v, hv⟩ := decodeSequence_ok decodeHandler p.2 hv.1
          (fun x hx => decodeHandler_ok x (hv.2 x hx))
        exact ⟨{ r with Handlers := v }, by rw [hv]; rfl, fun _ => rfl,
          fun hne => absurd h2 hne⟩
      · rw [if_neg h0, if_neg h1, if_neg h2]
        exact ⟨r, rfl, fun _ => rfl, fun _ => rfl⟩

/-- A router document that fits the schema decodes, and a sequence whose key it
does not have is empty. -/
theorem decodeRouter_ok (n : Node) (h : validRouter n = true) :
    ∃ r, decodeRouter n = Except.ok r ∧
      (hasKey "middlewares" n = false → r.Middlewares = []) ∧
      (hasKey "handlers" n = false → r.Handlers = []) := by
  cases n with
  | scalar v => simp [validRouter, isMapping] at h
  | sequence xs => simp [validRouter, isMapping] at h
  | mapping ps =>
    simp only [validRouter, isMapping, entries, Bool.true_and, List.all_eq_true] at h
    have key := foldlM_ok_of_step stepRouter
      (fun r => (hasKey "middlewares" (Node.mapping ps) = false → r.Middlewares = []) ∧
        (hasKey "handlers" (Node.mapping ps) = false → r.Handlers = [])) ps (by
      intro p hp r hr
      obtain ⟨r', hr', hm, hh⟩ := stepRouter_ok r p (h p hp)
      refine ⟨r', hr', ?_, ?_⟩
      · intro hk
        have hne : p.1 ≠ "middlewares" := by
          simp only [hasKey, entries, List.any_eq_false, beq_iff_eq] at hk
          exact hk p hp
        rw [hm hne]
        exact hr.1 hk
      · intro hk
        have hne : p.1 ≠ "handlers" := by
          simp only [hasKey, entries, List.any_eq_false, beq_iff_eq] at hk
          exact hk p hp
        rw [hh hne]
        exact hr.2 hk) {} ⟨fun _ => rfl, fun _ => rfl⟩
    exact key

/-- A server document that fits the schema decodes into any `Server`; it leaves
`Routers` alone if it does not have the key, and a router it puts there is the
decoding of one of its router documents. -/
theorem decodeServer_ok (s : Server) (n : Node) (h : validServer n = true) :
    ∃ s', decodeServer s n = Except.ok s' ∧
      (hasKey "routers" n = false → s'.Routers = s.Routers) ∧
      (∀ r ∈ s'.Routers, r ∈ s.Routers ∨
        ∃ x ∈ serverRouterNodes n, validRouter x = true ∧ decodeRouter x = Except.ok r) := by
  cases n with
  | scalar v => simp [validServer, isMapping] at h
  | sequence xs => simp [validServer, isMapping] at h
  | mapping ps =>
    simp only [validServer, isMapping, entries, Bool.true_and, List.all_eq_true] at h
    have key := foldlM_ok_of_step stepServer
      (fun s' => (hasKey "routers" (Node.mapping ps) = false → s'.Routers = s.Routers) ∧
        (∀ r ∈ s'.Routers, r ∈ s.Routers ∨
          ∃ x ∈ serverRouterNodes (Node.mapping ps),
            validRouter x = true ∧ decodeRouter x = Except.ok r)) ps (by
      intro p hp s1 hs1
      have hv := h p hp
      unfold stepServer
      by_cases h0 : p.1 = "port"
      · rw [if_pos h0] at hv ⊢
        obtain ⟨v, hv⟩ := decodeString_ok p.2 hv
        exact ⟨{ s1 with Port := v }, by rw [hv]; rfl, hs1⟩
      · by_cases h1 : p.1 = "routers"
        · rw [if_neg h0, if_pos h1] at hv ⊢
          simp only [Bool.and_eq_true, List.all_eq_true] at hv
          obtain ⟨v, hdec⟩ := decodeSequence_ok decodeRouter p.2 hv.1
            (fun x hx => (decodeRouter_ok x (hv.2 x hx)).imp (fun _ hr => hr.1))
          refine ⟨{ s1 with Routers := v }, by rw [hdec]; rfl, ?_, ?_⟩
          · intro hk
            simp only [hasKey, entries, List.any_eq_false, beq_iff_eq] at hk
            exact absurd h1 (hk p hp)
          · intro r hr
            right
            have hseq : (items p.2).mapM decodeRouter = Except.ok v := by
              cases hp2 : p.2 with
              | scalar v0 => rw [hp2] at hv; simp [isSequence] at hv
              | mapping qs => rw [hp2] at hv; simp [isSequence] at hv
              | sequence xs => rw [hp2] at hdec; exact hdec
            obtain ⟨x, hx, hxr⟩ := mapM_ok_mem decodeRouter (items p.2) v hseq r hr
            refine ⟨x, ?_, hv.2 x hx, hxr⟩
            simp only [serverRouterNodes, entries, List.mem_flatMap]
            exact ⟨p, hp, by rw [if_pos h1]; exact hx⟩
        · rw [if_neg h0, if_neg h1]
          exact ⟨s1, rfl, hs1⟩) s ⟨fun _ => rfl, fun r hr => Or.inl hr⟩
    exact key

/-- A document that fits the schema decodes into any `Config`; it leaves
`Server.Routers` alone if no server mapping in it has the key `routers`, and a
router it puts there is the decoding of one of its router documents. -/
theorem decodeConfig_ok (c : Config) (n : Node) (h : validConfig n = true) :
    ∃ c', decodeConfig c n = Except.ok c' ∧
      (omitsRouters n = true → c'.Server.Routers = c.Server.Routers) ∧
      (∀ r ∈ c'.Server.Routers, r ∈ c.Server.Routers ∨
        ∃ x ∈ routerNodes n, validRouter x = true ∧ decodeRouter x = Except.ok r) := by
  cases n with
  | scalar v => simp [validConfig, isMapping] at h
  | sequence xs => simp [validConfig, isMapping] at h
  | mapping ps =>
    simp only [validConfig, isMapping, entries, Bool.true_and, List.all_eq_true] at h
    have key := foldlM_ok_of_step stepConfig
      (fun c' =>
        (omitsRouters (Node.mapping ps) = true → c'.Server.Routers = c.Server.Routers) ∧
        (∀ r ∈ c'.Server.Routers, r ∈ c.Server.Routers ∨
          ∃ x ∈ routerNodes (Node.mapping ps),
            validRouter x = true ∧ decodeRouter x = Except.ok r))
      ps (by
      intro p hp c1 hc1
      have hv := h p hp
      unfold stepConfig
      by_cases h0 : p.1 = "server"
      · rw [if_pos h0] at hv ⊢
        obtain ⟨s', hs', hkeep, hfrom⟩ := decodeServer_ok c1.Server p.2 hv
        refine ⟨{ c1 with Server := s' }, by rw [hs']; rfl, ?_, ?_⟩
        · intro ho
          have hp2 : hasKey "routers" p.2 = false := by
            simp only [omitsRouters, entries, List.all_eq_true] at ho
            have := ho p hp
            rw [if_pos h0] at this
            simpa using this
          show s'.Routers = c.Server.Routers
          rw [hkeep hp2]
          exact hc1.1 ho
        · intro r hr
          rcases hfrom r hr with hold | ⟨x, hx, hxv, hxr⟩
          · exact hc1.2 r hold
          · right
            refine ⟨x, ?_, hxv, hxr⟩
            simp only [routerNodes, entries, List.mem_flatMap]
            exact ⟨p, hp, by rw [if_pos h0]; exact hx⟩
      · rw [if_neg h0]
        exact ⟨c1, rfl, hc1⟩) c ⟨fun _ => rfl, fun r hr => Or.inl hr⟩
    exact key

/-- The whole of C10 for a document: it decodes into a new `Config`, with no
`Routers` if it omits the key, and each router of the result is the decoding of
a router document of the input, with no `Middlewares` or `Handlers` where that
document omits the key. -/
theorem decodeConfig_zero_ok (doc : Node) (hdoc : validConfig doc = true) :
    ∃ c, decodeConfig ({} : Config) doc = Except.ok c ∧
      (omitsRouters doc = true → c.Server.Routers = []) ∧
      (∀ r ∈ c.Server.Routers, ∃ x ∈ routerNodes doc, decodeRouter x = Except.ok r ∧
        (hasKey "middlewares" x = false → r.Middlewares = []) ∧
        (hasKey "handlers" x = false → r.Handlers = [])) := by
  obtain ⟨c, hc, hr, hfrom⟩ := decodeConfig_ok {} doc hdoc
  refine ⟨c, hc, hr, ?_⟩
  intro r hmem
  rcases hfrom r hmem with hold | ⟨x, hx, hxv, hxr⟩
  · cases hold
  · obtain ⟨r', hr', hm, hh⟩ := decodeRouter_ok x hxv
    have : r' = r := by
      rw [hr'] at hxr
      exact Except.ok.inj hxr
    subst this
    exact ⟨x, hx, hr', hm, hh⟩

/-- C10. A document that fits the schema (every key the schema knows has a value
of the right shape; no key is required) deserializes into a new `Config` without
error; `Server.Routers` is empty if the document omits `routers`, and each router
of the result comes from a router document of the input and has `Middlewares`
empty if that document omits `middlewares`, `Handlers` empty if it omits
`handlers`.  A router document that fits the schema deserializes without error,
with the same two fields empty if it omits their keys.  The document
`server: {port: "80"}` gives, through `loadBinary`, a `Config` whose `Server` has
`Port` `"80"` and no `Routers`. -/
theorem decode_missing_sequences (σ : Type) (doc router : Node)
    (hdoc : validConfig doc = true) (hrouter : validRouter router = true) :
    (∃ c, decodeConfig ({} : Config) doc = Except.ok c ∧
      (omitsRouters doc = true → c.Server.Routers = []) ∧
      (∀ r ∈ c.Server.Routers, ∃ x ∈ routerNodes doc, decodeRouter x = Except.ok r ∧
        (hasKey "middlewares" x = false → r.Middlewares = []) ∧
        (hasKey "handlers" x = false → r.Handlers = []))) ∧
    (∃ r, decodeRouter router = Except.ok r ∧
      (hasKey "middlewares" router = false → r.Middlewares = []) ∧
      (hasKey "handlers" router = false → r.Handlers = [])) ∧
    (∀ (lib : Lib σ) (parse : Option Bytes → Except Error (Option Node)) (b : Option Bytes)
      (w : σ), lib.Unmarshal = yamlUnmarshal parse → parse b = Except.ok (some doc80) →
      Config.loadBinary lib ({} : Config) b w =
        (Outcome.returned { Server := { Port := "80", Routers := [] } }, w)) := by
  refine ⟨decodeConfig_zero_ok doc hdoc, decodeRouter_ok router hrouter, ?_⟩
  intro lib parse b w hlib hparse
  have hdec : decodeConfig ({} : Config) doc80 =
      Except.ok { Server := { Port := "80", Routers := [] } } := rfl
  simp [Config.loadBinary, hlib, yamlUnmarshal, hparse, hdec]

/-- C10, at the document `server: {port: "80"}` and at the router document
`{prefix: "/api"}`, with the bytes of the former loaded in the sample world. -/
theorem decode_missing_sequences_witness :
    validConfig doc80 = true ∧
    validRouter (Node.mapping [("prefix", Node.scalar "/api")]) = true ∧
    omitsRouters doc80 = true ∧
    (∃ r, decodeRouter (Node.mapping [("prefix", Node.scalar "/api")]) = Except.ok r ∧
      (hasKey "middlewares" (Node.mapping [("prefix", Node.scalar "/api")]) = false →
        r.Middlewares = []) ∧
      (hasKey "handlers" (Node.mapping [("prefix", Node.scalar "/api")]) = false →
        r.Handlers = [])) ∧
    Config.loadBinary sampleLib ({} : Config)
        (some (ascii "server: \x7bport: \"80\"\x7d")) sampleWorld =
      (Outcome.returned { Server := { Port := "80", Routers := [] } }, sampleWorld) :=
  ⟨by decide, by decide, by decide,
    (decode_missing_sequences World doc80 (Node.mapping [("prefix", Node.scalar "/api")])
      (by decide) (by decide)).2.1,
    (decode_missing_sequences World doc80 (Node.mapping [("prefix", Node.scalar "/api")])
      (by decide) (by decide)).2.2 sampleLib sampleParse _ sampleWorld rfl rfl⟩

end Configuration
